import Mathlib

/-!
Verification of the consolidation engine of `src/Archive/SEC_Edgar.py`.

The embedding models:
* pandas cell values as `Cell` (Python `None`, float `NaN`, or a number);
* the per-company consolidated DataFrame as `Table` (ordered date-label
  columns after the fixed `tag`/`stmt` columns, and ordered rows);
* `Company.appendFilings` as `appendFilings`;
* `select_value` as `select_value`;
* `get_complete_filing_years` as `get_complete_filing_years`, with the
  in-place mutation of the caller's dataframe made explicit by returning
  the post-call dataframe alongside the result, and the `KeyError` raised
  by indexing a missing pivot column modelled as `Option.none`;
* the `__main__` CSV export (`to_csv` with `index=True`) as `export_csv`
  and the `strftime('%d_%m_%Y')` date label as `strftime_dmY`.
-/

/-- A pandas cell value: Python `None`, float `NaN`, or a numeric value. -/
inductive Cell where
  | null : Cell
  | nan : Cell
  | num : Int → Cell
deriving DecidableEq, Repr

/-- A row key: the (tag, stmt) pair, as in `zip(df['tag'], df['stmt'])`. -/
abbrev Key := String × String

/-- One row of the consolidated DataFrame: its (tag, stmt) key and its
cells under the date-label columns, in column order. -/
structure Row where
  key : Key
  vals : List Cell
deriving DecidableEq, Repr

/-- The consolidated DataFrame: the date-label columns (those after the
fixed `tag` and `stmt` columns) in order, and the rows in order. -/
structure Table where
  cols : List String
  rows : List Row
deriving DecidableEq, Repr

/-- A freshly initialized table, `pd.DataFrame(columns=['tag','stmt'])`:
no date columns and no rows. -/
def Table.empty : Table := ⟨[], []⟩

/-- `replace({np.nan: None})` on one cell. -/
def denanC : Cell → Cell
  | Cell.nan => Cell.null
  | c => c

/-- `replace({np.nan: None})` on one row. -/
def Row.denan (r : Row) : Row := ⟨r.key, r.vals.map denanC⟩

/-- `self.consolidated_filings.loc[mask, filingDate] = v` on the value list
of one masked row: every position whose column is `d` receives `v`. -/
def writeCell (cols : List String) (d : String) (v : Cell) (vals : List Cell) : List Cell :=
  List.zipWith (fun c x => if c = d then v else x) cols vals

/-- One iteration of the `for _, row in df.iterrows()` loop applied to one
table row: the row is rewritten when its key matches the df row's key. -/
def writeRow (cols : List String) (d : String) (kv : Key × Cell) (r : Row) : Row :=
  if r.key = kv.1 then ⟨r.key, writeCell cols d kv.2 r.vals⟩ else r

/-- The whole `for _, row in df.iterrows()` loop: each df row in order
updates every matching table row. -/
def writeAll (cols : List String) (d : String) (df : List (Key × Cell)) (rs : List Row) :
    List Row :=
  df.foldl (fun rs kv => rs.map (writeRow cols d kv)) rs

/-- `if len(self.consolidated_filings) == 0: ... = pd.DataFrame(columns=['tag','stmt'])`:
a table with no rows is re-initialized, discarding any date columns. -/
def resetIfEmpty (t : Table) : Table := if t.rows.isEmpty then Table.empty else t

/-- `combinations_to_add = set(zip(df.tag, df.stmt)) - existing_combinations`:
the input keys, deduplicated, minus those already present. -/
def toAddOf (t0 : Table) (df : List (Key × Cell)) : List Key :=
  (df.map Prod.fst).dedup.filter (fun k => ¬ k ∈ t0.rows.map Row.key)

/-- `pd.concat([self.consolidated_filings, new_rows], ignore_index=True)`:
the new keys are appended as rows whose cells in every existing date
column are `NaN` (pandas fills missing columns of concatenated frames). -/
def rows1Of (t0 : Table) (df : List (Key × Cell)) : List Row :=
  t0.rows ++ (toAddOf t0 df).map (fun k => ⟨k, t0.cols.map (fun _ => Cell.nan)⟩)

/-- `if filingDate not in self.consolidated_filings.columns: ...[filingDate] = None`:
the column list after possibly creating the new date column. -/
def colsAfter (t0 : Table) (d : String) : List String :=
  if d ∈ t0.cols then t0.cols else t0.cols ++ [d]

/-- The rows after possibly creating the new date column: each row gains a
`None` cell under the new column. -/
def rows2Of (t0 : Table) (df : List (Key × Cell)) (d : String) : List Row :=
  if d ∈ t0.cols then rows1Of t0 df
  else (rows1Of t0 df).map (fun r => ⟨r.key, r.vals ++ [Cell.null]⟩)

/-- `Company.appendFilings(df, filingDate)` (src/Archive/SEC_Edgar.py lines
42-81): reset a zero-length table, append the new (tag, stmt) rows, create
the date column if missing, run the write loop, and replace `NaN` by
`None`. The input `df` is the list of (key, merged-value) rows. -/
def appendFilings (t : Table) (df : List (Key × Cell)) (filingDate : String) : Table :=
  ⟨colsAfter (resetIfEmpty t) filingDate,
   (writeAll (colsAfter (resetIfEmpty t) filingDate) filingDate df
      (rows2Of (resetIfEmpty t) df filingDate)).map Row.denan⟩

/-- Reading one cell from a value list: the value under the first column
named `c`, or `None` when there is no such column (a cell of the sparse
table that does not exist reads as absent). -/
def readVals (cols : List String) (vals : List Cell) (c : String) : Cell :=
  match cols, vals with
  | [], _ => Cell.null
  | _ :: _, [] => Cell.null
  | c0 :: cs, v :: vs => if c0 = c then v else readVals cs vs c

/-- Reading the cell of the consolidated table at row key `k` and column
`c`; a missing row or column reads as absent. -/
def getCell (t : Table) (k : Key) (c : String) : Cell :=
  match t.rows.find? (fun r => r.key = k) with
  | Option.none => Cell.null
  | Option.some r => readVals t.cols r.vals c

/-- The table is rectangular: every row has one cell per date column. -/
def Table.WF (t : Table) : Prop := ∀ r ∈ t.rows, r.vals.length = t.cols.length

/-- No cell of the table is the float `NaN` sentinel. -/
def Table.NoNan (t : Table) : Prop := ∀ r ∈ t.rows, ∀ x ∈ r.vals, x ≠ Cell.nan

instance (t : Table) : Decidable t.WF := by
  unfold Table.WF; infer_instance

instance (t : Table) : Decidable t.NoNan := by
  unfold Table.NoNan; infer_instance

/-- `pd.notna`: true exactly on numeric values (`None` and `NaN` are na). -/
def isNotNA : Cell → Bool
  | Cell.num _ => true
  | _ => false

/-- `select_value(row)` (src/Archive/SEC_Edgar.py lines 83-90): enumerate
the row, keep the non-na entries with their positions; one survivor is
returned as is, of two survivors the later-positioned one is returned,
anything else yields `None`. -/
def select_value (row : List Cell) : Cell :=
  match row.enum.filter (fun p => isNotNA p.2) with
  | [p] => p.2
  | [_, q] => q.2
  | _ => Cell.null


/-- A `period` cell of the filings dataframe: either the raw `yyyymmdd`
integer as read from the index, or the datetime value produced by
`pd.to_datetime(..., format='%Y%m%d')`. -/
inductive PeriodV where
  | raw : Nat → PeriodV
  | date : Nat → Nat → Nat → PeriodV
deriving DecidableEq, Repr

/-- `pd.to_datetime(df['period'].astype(str), format='%Y%m%d')` on one
value: the yyyymmdd integer is split into year, month and day. -/
def to_datetime : PeriodV → PeriodV
  | PeriodV.raw n => PeriodV.date (n / 10000) (n / 100 % 100) (n % 100)
  | PeriodV.date y m d => PeriodV.date y m d

/-- `.dt.year` of a period value. -/
def PeriodV.year : PeriodV → Nat
  | PeriodV.raw n => n / 10000
  | PeriodV.date y _ _ => y

/-- Chronological sort key of a period value. -/
def PeriodV.skey : PeriodV → Nat
  | PeriodV.raw n => n
  | PeriodV.date y m d => y * 10000 + m * 100 + d

/-- One row of the filings dataframe handed to `get_complete_filing_years`:
accession id, form string, period, and the `filing_year` column, which is
absent (`Option.none`) until the function adds it. -/
structure FilingRow where
  adsh : String
  form : String
  period : PeriodV
  filing_year : Option Nat
deriving DecidableEq, Repr

/-- The per-row effect of the in-place mutation of lines 106-110: the
period becomes a datetime and the filing_year column is filled. -/
def mutateRow (f : FilingRow) : FilingRow :=
  { f with period := to_datetime f.period,
           filing_year := Option.some (to_datetime f.period).year }

/-- The in-place mutation of the caller's dataframe performed by
`get_complete_filing_years` lines 106-110: `df['period']` is converted to
datetime and a `filing_year` column is added. -/
def mutate_df (df : List FilingRow) : List FilingRow :=
  df.map mutateRow

/-- The pivot-table count for year `y` and form `form`: the number of rows
of the (mutated) dataframe with that `filing_year` and that `form`
(`aggfunc='count'` over the always-present `adsh` column). -/
def pivotCount (df2 : List FilingRow) (y : Nat) (form : String) : Nat :=
  (df2.filter (fun f => f.filing_year = Option.some y && f.form = form)).length

/-- The year of a mutated row, as read off its `filing_year` column. -/
def rowYear (f : FilingRow) : Nat := f.filing_year.getD 0

/-- Ordering of filing rows by period, as used by `sort_values('period')`. -/
def periodLe (a b : FilingRow) : Prop := a.period.skey ≤ b.period.skey

instance : DecidableRel periodLe := fun a b => Nat.decLe _ _

instance : IsTotal FilingRow periodLe := ⟨fun a b => Nat.le_total _ _⟩

instance : IsTrans FilingRow periodLe := ⟨fun _ _ _ h h' => Nat.le_trans h h'⟩

/-- The column labels of the pivot table: the distinct form values that
occur in the dataframe (`pd.pivot_table(..., columns='form', ...)`). -/
def pivotFormsOf (df2 : List FilingRow) : List String :=
  (df2.map (fun f => f.form)).dedup

/-- `complete_years`: the pivot-index years whose 10-Q count is exactly 3
and whose 10-K count is exactly 1. -/
def completeYearsOf (df2 : List FilingRow) : List Nat :=
  ((df2.map rowYear).dedup).filter
    (fun y => pivotCount df2 y "10-Q" = 3 && pivotCount df2 y "10-K" = 1)

/-- `df[df.filing_year.isin(complete_years) & df.form.isin(['10-Q','10-K'])]`. -/
def completeFilter (df2 : List FilingRow) : List FilingRow :=
  df2.filter
    (fun f => rowYear f ∈ completeYearsOf df2 && (f.form = "10-Q" || f.form = "10-K"))

/-- `.drop('filing_year', axis=1)` on one row of the returned copy. -/
def dropFilingYear (f : FilingRow) : FilingRow := { f with filing_year := Option.none }

/-- `get_complete_filing_years(df)` (src/Archive/SEC_Edgar.py lines
93-140). The first component is the caller's dataframe after the call
(the function mutates it in place); the second is the returned filtered
copy, or `Option.none` when `filing_counts['10-Q']` or
`filing_counts['10-K']` raises a `KeyError` because no filing of that
form exists (the pivot table only has columns for forms that occur).
The returned copy keeps the datetime periods, is restricted to complete
years and to the 10-Q/10-K forms, is sorted ascending by period
(`sort_values('period')`, modelled by insertion sort; the ordering among
equal periods is not specified by pandas's default unstable sort), and
has the temporary `filing_year` column dropped. -/
def get_complete_filing_years (df : List FilingRow) :
    List FilingRow × Option (List FilingRow) :=
  let df2 := mutate_df df
  if "10-Q" ∈ pivotFormsOf df2 ∧ "10-K" ∈ pivotFormsOf df2 then
    (df2,
     Option.some ((List.insertionSort periodLe (completeFilter df2)).map dropFilingYear))
  else (df2, Option.none)

/-- A cell as written by `to_csv`: numbers print, `None` and `NaN` print
as the empty field. -/
def cellToCsv : Cell → String
  | Cell.null => ""
  | Cell.nan => ""
  | Cell.num v => toString v

/-- `consolidated_filings.to_csv(filename, index=True)` (line 199): the
header row holds an empty field for the unnamed index, then `tag`,
`stmt`, then the date-label columns; each data row holds the positional
index, the key pair, then the cells. -/
def export_csv (t : Table) : List (List String) :=
  ("" :: "tag" :: "stmt" :: t.cols) ::
    t.rows.enum.map (fun p =>
      toString p.1 :: p.2.key.1 :: p.2.key.2 :: p.2.vals.map cellToCsv)

/-- Two decimal digits, as printed by `strftime` for `%d` and `%m`. -/
def fmt2 (n : Nat) : String :=
  String.mk [Nat.digitChar (n / 10 % 10), Nat.digitChar (n % 10)]

/-- Four decimal digits, as printed by `strftime` for `%Y`. -/
def fmt4 (n : Nat) : String :=
  String.mk [Nat.digitChar (n / 1000 % 10), Nat.digitChar (n / 100 % 10),
             Nat.digitChar (n / 10 % 10), Nat.digitChar (n % 10)]

/-- `row.period.strftime('%d_%m_%Y')` (line 194): the date label used as
the merge column name. -/
def strftime_dmY : PeriodV → String
  | PeriodV.date y m d => fmt2 d ++ "_" ++ fmt2 m ++ "_" ++ fmt4 y
  | PeriodV.raw n => fmt2 (n % 100) ++ "_" ++ fmt2 (n / 100 % 100) ++ "_" ++ fmt4 (n / 10000)


/-- The write loop restricted to a single table row: folding the df rows
over it. `writeAll` is shown below to act as this map row by row. -/
def applyWrites (cols : List String) (d : String) (df : List (Key × Cell)) (r : Row) : Row :=
  df.foldl (fun r kv => writeRow cols d kv r) r

/-- The value of the last df entry carrying key `k`, if any: the write
loop leaves exactly this value in the cell of the `k` row. -/
def lastVal : List (Key × Cell) → Key → Option Cell
  | [], _ => Option.none
  | kv :: df, k =>
    match lastVal df k with
    | Option.some v => Option.some v
    | Option.none => if kv.1 = k then Option.some kv.2 else Option.none

/-- The number of occurrences of key `k`; the number of table rows whose
(tag, stmt) pair equals `k` when applied to the key column. -/
def countKey (l : List Key) (k : Key) : Nat := l.countP (fun a => a = k)

/-- Prior table used by the frame witness: one merged filing. -/
def tFrameW : Table :=
  appendFilings Table.empty [(("Revenues", "IS"), Cell.num 100)] "31_03_2022"

/-- The per-year per-form filing count over the original list, grouping
by the calendar year extracted from the period-end date: the counting
that the pivot table performs after the period conversion. -/
def yearFormCount (df : List FilingRow) (y : Nat) (form : String) : Nat :=
  (df.filter (fun f => (to_datetime f.period).year = y && f.form = form)).length

/-- Concrete one-row input for the mutation witness. -/
def dfMutW : List FilingRow := [⟨"a1", "10-Q", PeriodV.raw 20220331, Option.none⟩]

/-- Concrete input for the duplicate-filing witness: 2022 holds two
annual filings (a duplicate slot), 2021 is complete. -/
def dfDupW : List FilingRow :=
  [⟨"k2", "10-K", PeriodV.raw 20221231, Option.none⟩,
   ⟨"k3", "10-K", PeriodV.raw 20221230, Option.none⟩,
   ⟨"q1", "10-Q", PeriodV.raw 20210331, Option.none⟩,
   ⟨"q2", "10-Q", PeriodV.raw 20210630, Option.none⟩,
   ⟨"q3", "10-Q", PeriodV.raw 20210930, Option.none⟩,
   ⟨"k1", "10-K", PeriodV.raw 20211231, Option.none⟩]

/-- The output the filter produces on `dfDupW`: only the complete 2021
filings, none from the overfull 2022. -/
def outDupW : List FilingRow :=
  [⟨"q1", "10-Q", PeriodV.date 2021 3 31, Option.none⟩,
   ⟨"q2", "10-Q", PeriodV.date 2021 6 30, Option.none⟩,
   ⟨"q3", "10-Q", PeriodV.date 2021 9 30, Option.none⟩,
   ⟨"k1", "10-K", PeriodV.date 2021 12 31, Option.none⟩]

/-- Follows the specification's words for C2 (refinement reference,
stated independently of the implementation): a filing is kept exactly
when its form kind is 10-Q or 10-K and the calendar year of its
period-end date holds exactly three 10-Q filings and exactly one 10-K
filing in the input list. -/
def specComplete (df : List FilingRow) (f : FilingRow) : Bool :=
  (f.form = "10-Q" || f.form = "10-K")
  && yearFormCount df ((to_datetime f.period).year) "10-Q" = 3
  && yearFormCount df ((to_datetime f.period).year) "10-K" = 1

/-- The transformation each returned row has undergone relative to the
input list: datetime period, and no filing_year column. -/
def finalTransform (f : FilingRow) : FilingRow :=
  { f with period := to_datetime f.period, filing_year := Option.none }

/-- The spec scenario input: three 10-Q and one 10-K in 2022, one 10-Q
in 2023. -/
def dfSpecW : List FilingRow :=
  [⟨"q1", "10-Q", PeriodV.raw 20220331, Option.none⟩,
   ⟨"q2", "10-Q", PeriodV.raw 20220630, Option.none⟩,
   ⟨"q3", "10-Q", PeriodV.raw 20220930, Option.none⟩,
   ⟨"k1", "10-K", PeriodV.raw 20221231, Option.none⟩,
   ⟨"q4", "10-Q", PeriodV.raw 20230331, Option.none⟩]

/-- The table of the CSV witness and counterexample: one merged filing. -/
def tCsvW : Table :=
  appendFilings Table.empty [(("Revenues", "IS"), Cell.num 100)] "31_03_2022"

/-! ### Algebra of the write loop of `appendFilings` -/

example : select_value [Cell.nan, Cell.num 3, Cell.null, Cell.num 7] = Cell.num 7 := by decide
example : select_value [Cell.num 1, Cell.num 3, Cell.num 7] = Cell.null := by decide
example : select_value [Cell.null, Cell.num 3, Cell.nan] = Cell.num 3 := by decide
example : select_value [Cell.null, Cell.nan] = Cell.null := by decide
example : strftime_dmY (PeriodV.date 2022 3 31) = "31_03_2022" := by rfl
example : (get_complete_filing_years []).2 = Option.none := by rfl


theorem writeAll_cons (cols : List String) (d : String) (kv : Key × Cell)
    (df : List (Key × Cell)) (rs : List Row) :
    writeAll cols d (kv :: df) rs = writeAll cols d df (rs.map (writeRow cols d kv)) := rfl

theorem applyWrites_cons (cols : List String) (d : String) (kv : Key × Cell)
    (df : List (Key × Cell)) (r : Row) :
    applyWrites cols d (kv :: df) r = applyWrites cols d df (writeRow cols d kv r) := rfl

theorem writeAll_eq_map (cols : List String) (d : String) :
    ∀ (df : List (Key × Cell)) (rs : List Row),
      writeAll cols d df rs = rs.map (applyWrites cols d df) := by
  intro df
  induction df with
  | nil =>
    intro rs
    show rs = rs.map id
    rw [List.map_id]
  | cons kv df ih =>
    intro rs
    rw [writeAll_cons, ih, List.map_map]
    rfl

theorem writeRow_key (cols : List String) (d : String) (kv : Key × Cell) (r : Row) :
    (writeRow cols d kv r).key = r.key := by
  unfold writeRow; split <;> rfl

theorem applyWrites_key (cols : List String) (d : String) (df : List (Key × Cell)) :
    ∀ r : Row, (applyWrites cols d df r).key = r.key := by
  induction df with
  | nil => intro r; rfl
  | cons kv df ih =>
    intro r
    rw [applyWrites_cons, ih, writeRow_key]

theorem Row.denan_key (r : Row) : (Row.denan r).key = r.key := rfl

theorem writeCell_writeCell (d : String) (v w : Cell) :
    ∀ (cols : List String) (vals : List Cell),
      writeCell cols d v (writeCell cols d w vals) = writeCell cols d v vals := by
  intro cols
  induction cols with
  | nil => intro vals; rfl
  | cons c cs ih =>
    intro vals
    cases vals with
    | nil => rfl
    | cons x xs =>
      simp only [writeCell, List.zipWith]
      by_cases h : c = d <;> simp [h, writeCell] at ih ⊢ <;> exact ih xs

theorem denanC_denanC (c : Cell) : denanC (denanC c) = denanC c := by
  cases c <;> rfl

theorem map_denanC_idem (vals : List Cell) :
    (vals.map denanC).map denanC = vals.map denanC := by
  rw [List.map_map]
  exact List.map_congr_left (fun a _ => denanC_denanC a)

theorem map_denanC_writeCell (d : String) (v : Cell) :
    ∀ (cols : List String) (vals : List Cell),
      (writeCell cols d v vals).map denanC
        = writeCell cols d (denanC v) (vals.map denanC) := by
  intro cols
  induction cols with
  | nil => intro vals; rfl
  | cons c cs ih =>
    intro vals
    cases vals with
    | nil => rfl
    | cons x xs =>
      simp only [writeCell, List.zipWith, List.map_cons] at ih ⊢
      by_cases h : c = d <;> simp [h, ih xs]

theorem applyWrites_eq (cols : List String) (d : String)
    (df : List (Key × Cell)) (r : Row) :
    applyWrites cols d df r =
      match lastVal df r.key with
      | Option.none => r
      | Option.some v => ⟨r.key, writeCell cols d v r.vals⟩ := by
  induction df generalizing r with
  | nil => rfl
  | cons kv df ih =>
    rw [applyWrites_cons, ih]
    by_cases hk : r.key = kv.1
    · simp only [writeRow, if_pos hk]
      cases hlv : lastVal df r.key with
      | none =>
        simp [lastVal, hlv, hk.symm]
      | some w =>
        simp [lastVal, hlv, writeCell_writeCell]
    · simp only [writeRow, if_neg hk]
      cases hlv : lastVal df r.key with
      | none =>
        simp [lastVal, hlv, Ne.symm hk]
      | some w =>
        simp [lastVal, hlv]

/-- Re-running the write loop on an already written and normalized row
changes nothing: the single-row core of merge idempotence. -/
theorem rowIdem (cols : List String) (d : String) (df : List (Key × Cell)) (r : Row) :
    Row.denan (applyWrites cols d df (Row.denan (applyWrites cols d df r)))
      = Row.denan (applyWrites cols d df r) := by
  cases hlv : lastVal df r.key with
  | none =>
    have h1 : applyWrites cols d df r = r := by rw [applyWrites_eq, hlv]
    have h2 : applyWrites cols d df (Row.denan r) = Row.denan r := by
      rw [applyWrites_eq, Row.denan_key, hlv]
    rw [h1, h2]
    unfold Row.denan
    simp [map_denanC_idem, denanC_denanC]
  | some v =>
    have h1 : applyWrites cols d df r = ⟨r.key, writeCell cols d v r.vals⟩ := by
      rw [applyWrites_eq, hlv]
    have h2 : applyWrites cols d df (Row.denan ⟨r.key, writeCell cols d v r.vals⟩)
        = ⟨r.key, writeCell cols d v ((writeCell cols d v r.vals).map denanC)⟩ := by
      rw [applyWrites_eq, Row.denan_key, hlv]
      rfl
    rw [h1, h2]
    unfold Row.denan
    simp only [map_denanC_writeCell, map_denanC_idem, writeCell_writeCell]

/-! ### Row keys across a merge -/

theorem map_key_of_preserve (f : Row → Row) (h : ∀ r, (f r).key = r.key) (rs : List Row) :
    (rs.map f).map Row.key = rs.map Row.key := by
  rw [List.map_map]
  exact List.map_congr_left (fun r _ => h r)

theorem keys_writeAll_denan (cols : List String) (d : String) (df : List (Key × Cell))
    (rs : List Row) :
    ((writeAll cols d df rs).map Row.denan).map Row.key = rs.map Row.key := by
  rw [writeAll_eq_map, List.map_map, List.map_map]
  exact List.map_congr_left (fun r _ => by
    show (Row.denan (applyWrites cols d df r)).key = r.key
    rw [Row.denan_key, applyWrites_key])

theorem rows2_keys (t0 : Table) (df : List (Key × Cell)) (d : String) :
    (rows2Of t0 df d).map Row.key = t0.rows.map Row.key ++ toAddOf t0 df := by
  have h1 : (rows1Of t0 df).map Row.key = t0.rows.map Row.key ++ toAddOf t0 df := by
    unfold rows1Of
    rw [List.map_append, List.map_map]
    congr 1
    exact (List.map_congr_left (fun k _ => rfl)).trans (List.map_id _)
  unfold rows2Of
  split
  · exact h1
  · rw [map_key_of_preserve (fun r => ⟨r.key, r.vals ++ [Cell.null]⟩) (fun r => rfl)]
    exact h1

theorem appendFilings_keys (t : Table) (df : List (Key × Cell)) (d : String) :
    (appendFilings t df d).rows.map Row.key
      = (resetIfEmpty t).rows.map Row.key ++ toAddOf (resetIfEmpty t) df := by
  show ((writeAll _ d df (rows2Of (resetIfEmpty t) df d)).map Row.denan).map Row.key = _
  rw [keys_writeAll_denan, rows2_keys]

theorem mem_toAddOf (t0 : Table) (df : List (Key × Cell)) (k : Key) :
    k ∈ toAddOf t0 df ↔ k ∈ df.map Prod.fst ∧ ¬ k ∈ t0.rows.map Row.key := by
  simp [toAddOf, List.mem_filter, List.mem_dedup]

/-- C1: merge is idempotent. Re-merging the same (items, dateLabel) pair
into the table produced by the first merge returns that table unchanged:
same columns, same rows in the same order, same cell values. -/
theorem appendFilings_idem (t : Table) (df : List (Key × Cell)) (d : String) :
    appendFilings (appendFilings t df d) df d = appendFilings t df d := by
  by_cases hsp : t.rows.isEmpty = true ∧ df = []
  · obtain ⟨h1, h2⟩ := hsp
    subst h2
    have e1 : appendFilings t [] d = ⟨[d], []⟩ := by
      unfold appendFilings rows2Of rows1Of toAddOf colsAfter resetIfEmpty writeAll
      rw [if_pos h1]
      simp [Table.empty]
    rw [e1]
    unfold appendFilings rows2Of rows1Of toAddOf colsAfter resetIfEmpty writeAll
    simp [Table.empty]
  · set T1 := appendFilings t df d with hT1
    have hlen := congrArg List.length (appendFilings_keys t df d)
    rw [List.length_map, List.length_append, List.length_map, ← hT1] at hlen
    have hpos : 0 < T1.rows.length := by
      by_cases hrows : t.rows.isEmpty = true
      · have hdf : df ≠ [] := fun h => hsp ⟨hrows, h⟩
        have hres : resetIfEmpty t = Table.empty := by
          unfold resetIfEmpty; rw [if_pos hrows]
        cases df with
        | nil => exact absurd rfl hdf
        | cons kv df' =>
          have hk : kv.1 ∈ (kv :: df').map Prod.fst := List.mem_map_of_mem Prod.fst (List.mem_cons_self kv df')
          have hmem : kv.1 ∈ toAddOf (resetIfEmpty t) (kv :: df') := by
            rw [hres]
            exact (mem_toAddOf Table.empty _ kv.1).mpr ⟨hk, by simp [Table.empty]⟩
          have := List.length_pos_of_mem hmem
          omega
      · have hne : t.rows ≠ [] := by
          cases h : t.rows with
          | nil => rw [h] at hrows; exact absurd rfl hrows
          | cons a l => exact List.cons_ne_nil a l
        have hres : resetIfEmpty t = t := by
          unfold resetIfEmpty; rw [if_neg hrows]
        rw [hres] at hlen
        have := List.length_pos.mpr hne
        omega
    have hne1 : T1.rows ≠ [] := List.ne_nil_of_length_pos hpos
    have hreset : resetIfEmpty T1 = T1 := by
      unfold resetIfEmpty
      rw [if_neg]
      cases h : T1.rows with
      | nil => exact absurd h hne1
      | cons a l => simp [h]
    have hd : d ∈ T1.cols := by
      show d ∈ colsAfter (resetIfEmpty t) d
      unfold colsAfter
      split
      · assumption
      · exact List.mem_append_right _ (List.mem_singleton.mpr rfl)
    have hkeys : ∀ k ∈ df.map Prod.fst, k ∈ T1.rows.map Row.key := by
      intro k hk
      rw [appendFilings_keys]
      by_cases hmem : k ∈ (resetIfEmpty t).rows.map Row.key
      · exact List.mem_append_left _ hmem
      · exact List.mem_append_right _ ((mem_toAddOf _ _ k).mpr ⟨hk, hmem⟩)
    have htoAdd : toAddOf T1 df = [] := by
      unfold toAddOf
      rw [List.filter_eq_nil_iff]
      intro k hk
      simp only [decide_eq_true_eq, Decidable.not_not]
      exact hkeys k (List.mem_dedup.mp hk)
    have hcols : colsAfter T1 d = T1.cols := by
      unfold colsAfter; rw [if_pos hd]
    have hrows1 : rows1Of T1 df = T1.rows := by
      unfold rows1Of; rw [htoAdd]; simp
    have hrows2 : rows2Of T1 df d = T1.rows := by
      unfold rows2Of; rw [if_pos hd, hrows1]
    have hTrows : T1.rows
        = (rows2Of (resetIfEmpty t) df d).map
            (Row.denan ∘ applyWrites (colsAfter (resetIfEmpty t) d) d df) := by
      show ((writeAll _ d df (rows2Of (resetIfEmpty t) df d)).map Row.denan) = _
      rw [writeAll_eq_map, List.map_map]
    have hX : T1.rows.map (Row.denan ∘ applyWrites T1.cols d df) = T1.rows := by
      conv_lhs => rw [hTrows]
      conv_rhs => rw [hTrows]
      rw [List.map_map]
      apply List.map_congr_left
      intro r _
      exact rowIdem _ d df r
    show appendFilings T1 df d = T1
    unfold appendFilings
    rw [hreset, hcols, hrows2, writeAll_eq_map, List.map_map, hX]

/-! ### The value-selection rule -/

theorem pairwise_fst_lt_enumFrom :
    ∀ (n : Nat) (l : List Cell), (l.enumFrom n).Pairwise (fun p q => p.1 < q.1) := by
  intro n l
  induction l generalizing n with
  | nil => exact List.Pairwise.nil
  | cons a l ih =>
    refine List.Pairwise.cons ?_ (ih (n + 1))
    intro q hq
    have := (List.mem_enumFrom hq).1
    omega

theorem pairwise_fst_lt_enum (l : List Cell) :
    l.enum.Pairwise (fun p q => p.1 < q.1) := pairwise_fst_lt_enumFrom 0 l

theorem enum_filter_map_snd (row : List Cell) :
    (row.enum.filter (fun p => isNotNA p.2)).map Prod.snd = row.filter isNotNA := by
  conv_rhs => rw [← List.enum_map_snd row, List.filter_map]
  rfl

/-- C3: the resolution policy of `select_value`. With no numeric
candidate the result is absent; a unique numeric candidate is returned
unchanged; of exactly two numeric candidates the one at the strictly
larger column index is returned; three or more numeric candidates
resolve to absent. -/
theorem select_value_resolve (row : List Cell) :
    ((row.filter isNotNA).length = 0 → select_value row = Cell.null)
    ∧ (∀ v, row.filter isNotNA = [v] → select_value row = v)
    ∧ (∀ i v j w, row.enum.filter (fun p => isNotNA p.2) = [(i, v), (j, w)] →
        i < j ∧ select_value row = w)
    ∧ (3 ≤ (row.filter isNotNA).length → select_value row = Cell.null) := by
  have hmap := enum_filter_map_snd row
  have hlen : (row.enum.filter (fun p => isNotNA p.2)).length
      = (row.filter isNotNA).length := by
    rw [← hmap, List.length_map]
  refine ⟨?_, ?_, ?_, ?_⟩
  · intro h
    have hnil : row.enum.filter (fun p => isNotNA p.2) = [] :=
      List.length_eq_zero.mp (hlen.trans h)
    unfold select_value
    rw [hnil]
  · intro v h
    have h1 : (row.enum.filter (fun p => isNotNA p.2)).length = 1 := by
      rw [hlen, h]
      rfl
    obtain ⟨p, hp⟩ := List.length_eq_one.mp h1
    have hv : p.2 = v := by
      rw [hp, h] at hmap
      simpa using hmap
    unfold select_value
    rw [hp]
    exact hv
  · intro i v j w h
    constructor
    · have hpw : (row.enum.filter (fun p => isNotNA p.2)).Pairwise
          (fun p q => p.1 < q.1) :=
        (pairwise_fst_lt_enum row).sublist (List.filter_sublist row.enum)
      rw [h] at hpw
      exact (List.pairwise_cons.mp hpw).1 (j, w) (List.mem_singleton.mpr rfl)
    · unfold select_value
      rw [h]
  · intro h
    have h3 : 3 ≤ (row.enum.filter (fun p => isNotNA p.2)).length := by
      rw [hlen]
      exact h
    rcases hc : row.enum.filter (fun p => isNotNA p.2) with _ | ⟨a, _ | ⟨b, _ | ⟨c, rest⟩⟩⟩
    · rw [hc] at h3
      simp only [List.length_nil] at h3
      omega
    · rw [hc] at h3
      simp only [List.length_cons, List.length_nil] at h3
      omega
    · rw [hc] at h3
      simp only [List.length_cons, List.length_nil] at h3
      omega
    · unfold select_value
      rw [hc]

/-! ### Reading cells after a merge -/

theorem denanC_of_ne_nan (c : Cell) (h : c ≠ Cell.nan) : denanC c = c := by
  cases c with
  | nan => exact absurd rfl h
  | null => rfl
  | num v => rfl

theorem readVals_not_mem (c : String) :
    ∀ (cols : List String) (vals : List Cell), ¬ c ∈ cols →
      readVals cols vals c = Cell.null := by
  intro cols
  induction cols with
  | nil => intro vals _; cases vals <;> rfl
  | cons c0 cs ih =>
    intro vals h
    cases vals with
    | nil => rfl
    | cons v vs =>
      have h0 : c0 ≠ c := fun hc => h (hc ▸ List.mem_cons_self c0 cs)
      show (if c0 = c then v else readVals cs vs c) = Cell.null
      rw [if_neg h0]
      exact ih vs (fun hc => h (List.mem_cons_of_mem c0 hc))

theorem readVals_write_self (d : String) (v : Cell) :
    ∀ (cols : List String) (vals : List Cell), cols.length ≤ vals.length → d ∈ cols →
      readVals cols (writeCell cols d v vals) d = v := by
  intro cols
  induction cols with
  | nil => intro vals _ hd; exact absurd hd (List.not_mem_nil d)
  | cons c0 cs ih =>
    intro vals hlen hd
    cases vals with
    | nil => simp at hlen
    | cons x xs =>
      show readVals (c0 :: cs) ((if c0 = d then v else x) :: writeCell cs d v xs) d = v
      by_cases h0 : c0 = d
      · show (if c0 = d then (if c0 = d then v else x) else _) = v
        rw [if_pos h0, if_pos h0]
      · show (if c0 = d then (if c0 = d then v else x) else readVals cs (writeCell cs d v xs) d) = v
        rw [if_neg h0]
        have hd' : d ∈ cs := by
          rcases List.mem_cons.mp hd with h | h
          · exact absurd h.symm h0
          · exact h
        exact ih xs (by simpa using Nat.le_of_succ_le_succ (by simpa using hlen)) hd'

theorem readVals_write_other (d c : String) (v : Cell) (hcd : c ≠ d) :
    ∀ (cols : List String) (vals : List Cell),
      readVals cols (writeCell cols d v vals) c = readVals cols vals c := by
  intro cols
  induction cols with
  | nil => intro vals; cases vals <;> rfl
  | cons c0 cs ih =>
    intro vals
    cases vals with
    | nil => rfl
    | cons x xs =>
      show (if c0 = c then (if c0 = d then v else x) else readVals cs (writeCell cs d v xs) c)
          = (if c0 = c then x else readVals cs xs c)
      by_cases h0 : c0 = c
      · rw [if_pos h0, if_pos h0, if_neg (h0.symm ▸ fun h => hcd h : ¬ c0 = d)]
      · rw [if_neg h0, if_neg h0, ih xs]

theorem readVals_map_denanC :
    ∀ (cols : List String) (vals : List Cell) (c : String),
      readVals cols (vals.map denanC) c = denanC (readVals cols vals c) := by
  intro cols
  induction cols with
  | nil => intro vals c; cases vals <;> rfl
  | cons c0 cs ih =>
    intro vals c
    cases vals with
    | nil => rfl
    | cons x xs =>
      show (if c0 = c then denanC x else readVals cs (xs.map denanC) c)
          = denanC (if c0 = c then x else readVals cs xs c)
      by_cases h0 : c0 = c
      · rw [if_pos h0, if_pos h0]
      · rw [if_neg h0, if_neg h0, ih xs c]

theorem readVals_append_mem (c : String) (x : Cell) (d : String) :
    ∀ (cols : List String) (vals : List Cell), vals.length = cols.length → c ∈ cols →
      readVals (cols ++ [d]) (vals ++ [x]) c = readVals cols vals c := by
  intro cols
  induction cols with
  | nil => intro vals _ hc; exact absurd hc (List.not_mem_nil c)
  | cons c0 cs ih =>
    intro vals hlen hc
    cases vals with
    | nil => simp at hlen
    | cons v vs =>
      show (if c0 = c then v else readVals (cs ++ [d]) (vs ++ [x]) c)
          = (if c0 = c then v else readVals cs vs c)
      by_cases h0 : c0 = c
      · rw [if_pos h0, if_pos h0]
      · rw [if_neg h0, if_neg h0]
        have hc' : c ∈ cs := by
          rcases List.mem_cons.mp hc with h | h
          · exact absurd h.symm h0
          · exact h
        exact ih vs (by simpa using hlen) hc'

theorem readVals_append_not_mem (c : String) (x : Cell) (d : String) :
    ∀ (cols : List String) (vals : List Cell), vals.length = cols.length → ¬ c ∈ cols →
      readVals (cols ++ [d]) (vals ++ [x]) c = if d = c then x else Cell.null := by
  intro cols
  induction cols with
  | nil =>
    intro vals hlen _
    have : vals = [] := List.length_eq_zero.mp hlen
    subst this
    rfl
  | cons c0 cs ih =>
    intro vals hlen hc
    cases vals with
    | nil => simp at hlen
    | cons v vs =>
      have h0 : c0 ≠ c := fun h => hc (h ▸ List.mem_cons_self c0 cs)
      show (if c0 = c then v else readVals (cs ++ [d]) (vs ++ [x]) c) = _
      rw [if_neg h0]
      exact ih vs (by simpa using hlen) (fun h => hc (List.mem_cons_of_mem c0 h))

theorem readVals_mem_or_null :
    ∀ (cols : List String) (vals : List Cell) (c : String),
      readVals cols vals c = Cell.null ∨ readVals cols vals c ∈ vals := by
  intro cols
  induction cols with
  | nil => intro vals c; cases vals <;> exact Or.inl rfl
  | cons c0 cs ih =>
    intro vals c
    cases vals with
    | nil => exact Or.inl rfl
    | cons v vs =>
      show readVals (c0 :: cs) (v :: vs) c = Cell.null ∨ _
      by_cases h0 : c0 = c
      · right
        show (if c0 = c then v else readVals cs vs c) ∈ v :: vs
        rw [if_pos h0]
        exact List.mem_cons_self v vs
      · have : readVals (c0 :: cs) (v :: vs) c = readVals cs vs c := by
          show (if c0 = c then v else readVals cs vs c) = _
          rw [if_neg h0]
        rw [this]
        rcases ih vs c with h | h
        · exact Or.inl h
        · exact Or.inr (List.mem_cons_of_mem v h)

theorem find?_key_map (f : Row → Row) (hf : ∀ r, (f r).key = r.key) (k : Key) :
    ∀ rs : List Row, (rs.map f).find? (fun r => r.key = k)
      = Option.map f (rs.find? (fun r => r.key = k)) := by
  intro rs
  induction rs with
  | nil => rfl
  | cons r rs ih =>
    by_cases h : r.key = k
    · rw [List.map_cons, List.find?_cons_of_pos, List.find?_cons_of_pos]
      · rfl
      · simpa using h
      · simpa [hf r] using h
    · rw [List.map_cons, List.find?_cons_of_neg, List.find?_cons_of_neg, ih]
      · simpa using h
      · simpa [hf r] using h

theorem lastVal_some_mem (df : List (Key × Cell)) (k : Key) (v : Cell)
    (h : lastVal df k = Option.some v) : k ∈ df.map Prod.fst := by
  induction df with
  | nil => exact absurd h (by simp [lastVal])
  | cons kv df ih =>
    rw [List.map_cons]
    cases hlv : lastVal df k with
    | some w =>
      unfold lastVal at h
      rw [hlv] at h
      exact List.mem_cons_of_mem _ (ih (hlv.trans h))
    | none =>
      unfold lastVal at h
      rw [hlv] at h
      by_cases hk : kv.1 = k
      · exact hk ▸ List.mem_cons_self _ _
      · rw [if_neg hk] at h
        exact absurd h (by simp)

theorem select_value_resolve_witness :
    select_value [Cell.null, Cell.nan] = Cell.null
    ∧ select_value [Cell.null, Cell.num 3, Cell.nan] = Cell.num 3
    ∧ (1 < 3 ∧ select_value [Cell.nan, Cell.num 3, Cell.null, Cell.num 7] = Cell.num 7)
    ∧ select_value [Cell.num 1, Cell.num 3, Cell.num 7] = Cell.null :=
  ⟨(select_value_resolve _).1 (by decide),
   (select_value_resolve _).2.1 (Cell.num 3) (by decide),
   (select_value_resolve _).2.2.1 1 (Cell.num 3) 3 (Cell.num 7) (by decide),
   (select_value_resolve _).2.2.2 (by decide)⟩

/-! ### Structure of the merged table -/

theorem appendFilings_rows_eq (t : Table) (df : List (Key × Cell)) (d : String) :
    (appendFilings t df d).rows
      = (rows2Of (resetIfEmpty t) df d).map
          (fun r => Row.denan (applyWrites (colsAfter (resetIfEmpty t) d) d df r)) := by
  show (writeAll _ _ df (rows2Of (resetIfEmpty t) df d)).map Row.denan = _
  rw [writeAll_eq_map, List.map_map]
  rfl

theorem appendFilings_cols_eq (t : Table) (df : List (Key × Cell)) (d : String) :
    (appendFilings t df d).cols = colsAfter (resetIfEmpty t) d := rfl

theorem mem_colsAfter_self (t0 : Table) (d : String) : d ∈ colsAfter t0 d := by
  unfold colsAfter
  split
  · assumption
  · exact List.mem_append_right _ (List.mem_singleton.mpr rfl)

theorem WF_resetIfEmpty (t : Table) (h : t.WF) : (resetIfEmpty t).WF := by
  unfold resetIfEmpty
  split
  · intro r hr
    exact absurd hr (List.not_mem_nil r)
  · exact h

theorem rows1_length (t0 : Table) (df : List (Key × Cell)) (hWF : t0.WF) :
    ∀ r ∈ rows1Of t0 df, r.vals.length = t0.cols.length := by
  intro r hr
  rcases List.mem_append.mp hr with h | h
  · exact hWF r h
  · rcases List.mem_map.mp h with ⟨k, _, hk⟩
    rw [← hk]
    exact List.length_map _ _

theorem rows2_length (t0 : Table) (df : List (Key × Cell)) (d : String) (hWF : t0.WF) :
    ∀ r ∈ rows2Of t0 df d, r.vals.length = (colsAfter t0 d).length := by
  unfold rows2Of colsAfter
  by_cases hd : d ∈ t0.cols
  · rw [if_pos hd, if_pos hd]
    exact rows1_length t0 df hWF
  · rw [if_neg hd, if_neg hd]
    intro r hr
    rcases List.mem_map.mp hr with ⟨r0, hr0, hre⟩
    rw [← hre]
    show (r0.vals ++ [Cell.null]).length = (t0.cols ++ [d]).length
    rw [List.length_append, List.length_append, rows1_length t0 df hWF r0 hr0]
    rfl

theorem find?_some_of_mem_keys (k : Key) :
    ∀ rs : List Row, k ∈ rs.map Row.key →
      ∃ r, rs.find? (fun r => r.key = k) = Option.some r := by
  intro rs hk
  cases h : rs.find? (fun r => r.key = k) with
  | some r => exact ⟨r, rfl⟩
  | none =>
    rcases List.mem_map.mp hk with ⟨r, hr, hre⟩
    have := List.find?_eq_none.mp h r hr
    simp [hre] at this

/-- The single-row effect needed for last-write-wins: a matched row of the
pre-write table reads back, under the date column, the last value written
for its key, after normalization. -/
theorem read_after_write (cols : List String) (d : String) (df : List (Key × Cell))
    (k : Key) (v : Cell) (r : Row) (hk : r.key = k)
    (hlast : lastVal df k = Option.some v) (hv : v ≠ Cell.nan)
    (hd : d ∈ cols) (hlen : cols.length ≤ r.vals.length) :
    readVals cols (Row.denan (applyWrites cols d df r)).vals d = v := by
  rw [applyWrites_eq, hk, hlast]
  show readVals cols ((writeCell cols d v r.vals).map denanC) d = v
  rw [readVals_map_denanC, readVals_write_self d v cols r.vals hlen hd,
      denanC_of_ne_nan v hv]

theorem countKey_append (l1 l2 : List Key) (k : Key) :
    countKey (l1 ++ l2) k = countKey l1 k + countKey l2 k :=
  List.countP_append _ _ _

theorem countKey_eq_zero (l : List Key) (k : Key) (h : ¬ k ∈ l) :
    countKey l k = 0 := by
  unfold countKey
  rw [List.countP_eq_zero]
  intro a ha
  simp only [decide_eq_true_eq]
  intro he
  exact h (he ▸ ha)

theorem countKey_pos (l : List Key) (k : Key) (h : k ∈ l) : 0 < countKey l k := by
  unfold countKey
  rw [List.countP_pos]
  exact ⟨k, h, by simp⟩

theorem countKey_cons (a : Key) (l : List Key) (k : Key) :
    countKey (a :: l) k = countKey l k + (if a = k then 1 else 0) := by
  unfold countKey
  rw [List.countP_cons]
  by_cases h : a = k <;> simp [h]

theorem countKey_eq_one (l : List Key) (k : Key) (hnd : l.Nodup) (h : k ∈ l) :
    countKey l k = 1 := by
  induction l with
  | nil => exact absurd h (List.not_mem_nil k)
  | cons a l ih =>
    rcases List.nodup_cons.mp hnd with ⟨hna, hnd'⟩
    rw [countKey_cons]
    rcases List.mem_cons.mp h with he | hm
    · rw [if_pos he.symm, countKey_eq_zero l k (he ▸ hna)]
    · have hne : a ≠ k := fun he => hna (he ▸ hm)
      rw [if_neg hne, ih hnd' hm]

theorem count_keys_appendFilings (t : Table) (df : List (Key × Cell)) (d : String)
    (k : Key) (hcount : countKey (t.rows.map Row.key) k ≤ 1)
    (hk : k ∈ df.map Prod.fst) :
    countKey ((appendFilings t df d).rows.map Row.key) k = 1 := by
  rw [appendFilings_keys, countKey_append]
  by_cases hrows : t.rows.isEmpty = true
  · have hres : resetIfEmpty t = Table.empty := by
      unfold resetIfEmpty; rw [if_pos hrows]
    have h1 : k ∈ toAddOf (resetIfEmpty t) df := by
      rw [hres]
      exact (mem_toAddOf _ _ _).mpr ⟨hk, by simp [Table.empty]⟩
    have h2 : (toAddOf (resetIfEmpty t) df).Nodup := by
      unfold toAddOf
      exact ((df.map Prod.fst).nodup_dedup).filter _
    have h3 : countKey (toAddOf (resetIfEmpty t) df) k = 1 := countKey_eq_one _ k h2 h1
    have h0 : countKey ((resetIfEmpty t).rows.map Row.key) k = 0 := by
      rw [hres]
      rfl
    omega
  · have hres : resetIfEmpty t = t := by
      unfold resetIfEmpty; rw [if_neg hrows]
    rw [hres]
    by_cases hmem : k ∈ t.rows.map Row.key
    · have h3 : ¬ k ∈ toAddOf t df := fun hc => ((mem_toAddOf _ _ _).mp hc).2 hmem
      have h4 : countKey (toAddOf t df) k = 0 := countKey_eq_zero _ k h3
      have h5 : 0 < countKey (t.rows.map Row.key) k := countKey_pos _ k hmem
      omega
    · have h4 : countKey (t.rows.map Row.key) k = 0 := countKey_eq_zero _ k hmem
      have h1 : k ∈ toAddOf t df := (mem_toAddOf _ _ _).mpr ⟨hk, hmem⟩
      have h2 : (toAddOf t df).Nodup := ((df.map Prod.fst).nodup_dedup).filter _
      rw [h4, countKey_eq_one _ k h2 h1]

/-- C7: after any merge, every cell of the consolidated table is either a
numeric value or the uniform `None` absence marker; no cell is the
type-specific `NaN` sentinel, including cells of newly added rows and of
a newly created column. -/
theorem appendFilings_no_nan (t : Table) (df : List (Key × Cell)) (d : String) :
    ∀ r ∈ (appendFilings t df d).rows, ∀ x ∈ r.vals,
      x = Cell.null ∨ ∃ v : Int, x = Cell.num v := by
  intro r hr x hx
  rw [appendFilings_rows_eq] at hr
  rcases List.mem_map.mp hr with ⟨r0, _, hr0⟩
  have hx' : x ∈ (applyWrites (colsAfter (resetIfEmpty t) d) d df r0).vals.map denanC := by
    rw [← hr0] at hx
    exact hx
  rcases List.mem_map.mp hx' with ⟨c, _, hc⟩
  cases c with
  | null => exact Or.inl hc.symm
  | nan => exact Or.inl hc.symm
  | num v => exact Or.inr ⟨v, hc.symm⟩

theorem appendFilings_no_nan_witness :
    Cell.num 100 = Cell.null ∨ ∃ v : Int, Cell.num 100 = Cell.num v :=
  appendFilings_no_nan Table.empty [(("Revenues", "IS"), Cell.num 100)] "31_03_2022"
    ⟨("Revenues", "IS"), [Cell.num 100]⟩ (by decide) (Cell.num 100) (by decide)

/-- C10: when one merge call's items carry the same (tag, stmt) key more
than once, the table still ends with exactly one row for that key (the
set difference deduplicates), and the cell under the date label holds the
value of the last such entry in input order (the write loop overwrites in
order). Stated for any prior table that holds at most one row for the
key, as every reachable table does. -/
theorem appendFilings_dup_last (t : Table) (df : List (Key × Cell)) (d : String)
    (k : Key) (v : Cell)
    (hcount : countKey (t.rows.map Row.key) k ≤ 1)
    (hWF : t.WF)
    (hlast : lastVal df k = Option.some v)
    (hv : v ≠ Cell.nan) :
    countKey ((appendFilings t df d).rows.map Row.key) k = 1
    ∧ getCell (appendFilings t df d) k d = v := by
  have hk : k ∈ df.map Prod.fst := lastVal_some_mem df k v hlast
  refine ⟨count_keys_appendFilings t df d k hcount hk, ?_⟩
  have hWF0 : (resetIfEmpty t).WF := WF_resetIfEmpty t hWF
  have hkeys2 : k ∈ (rows2Of (resetIfEmpty t) df d).map Row.key := by
    rw [rows2_keys]
    by_cases hmem : k ∈ (resetIfEmpty t).rows.map Row.key
    · exact List.mem_append_left _ hmem
    · exact List.mem_append_right _ ((mem_toAddOf _ _ _).mpr ⟨hk, hmem⟩)
  obtain ⟨r, hr⟩ := find?_some_of_mem_keys k _ hkeys2
  have hrk : r.key = k := by
    have := List.find?_some hr
    simpa using this
  have hrmem : r ∈ rows2Of (resetIfEmpty t) df d := List.mem_of_find?_eq_some hr
  have hlen : (colsAfter (resetIfEmpty t) d).length ≤ r.vals.length := by
    rw [rows2_length (resetIfEmpty t) df d hWF0 r hrmem]
  unfold getCell
  rw [appendFilings_rows_eq,
      find?_key_map _ (fun r => by rw [Row.denan_key, applyWrites_key]) k, hr]
  show readVals (appendFilings t df d).cols
      (Row.denan (applyWrites (colsAfter (resetIfEmpty t) d) d df r)).vals d = v
  exact read_after_write (colsAfter (resetIfEmpty t) d) d df k v r hrk hlast hv
    (mem_colsAfter_self (resetIfEmpty t) d) hlen

theorem appendFilings_dup_last_witness :
    countKey ((appendFilings Table.empty
        [(("Revenues", "IS"), Cell.num 1), (("Revenues", "IS"), Cell.num 2)]
        "31_03_2022").rows.map Row.key) ("Revenues", "IS") = 1
    ∧ getCell (appendFilings Table.empty
        [(("Revenues", "IS"), Cell.num 1), (("Revenues", "IS"), Cell.num 2)]
        "31_03_2022") ("Revenues", "IS") "31_03_2022" = Cell.num 2 :=
  appendFilings_dup_last Table.empty
    [(("Revenues", "IS"), Cell.num 1), (("Revenues", "IS"), Cell.num 2)]
    "31_03_2022" ("Revenues", "IS") (Cell.num 2)
    (by decide) (by decide) (by decide) (by decide)

/-! ### The frame guarantee of merge -/

theorem readVals_const_nan (c : String) :
    ∀ cols : List String,
      readVals cols (cols.map (fun _ => Cell.nan)) c
        = if c ∈ cols then Cell.nan else Cell.null := by
  intro cols
  induction cols with
  | nil => rfl
  | cons c0 cs ih =>
    show (if c0 = c then Cell.nan else readVals cs (cs.map (fun _ => Cell.nan)) c) = _
    by_cases h0 : c0 = c
    · rw [if_pos h0, if_pos (h0 ▸ List.mem_cons_self c0 cs)]
    · rw [if_neg h0, ih]
      by_cases hc : c ∈ cs
      · rw [if_pos hc, if_pos (List.mem_cons_of_mem c0 hc)]
      · rw [if_neg hc, if_neg (fun h => by
          rcases List.mem_cons.mp h with h | h
          · exact h0 h.symm
          · exact hc h)]

theorem lastVal_none_of_not_mem (df : List (Key × Cell)) (k : Key)
    (h : ¬ k ∈ df.map Prod.fst) : lastVal df k = Option.none := by
  cases hl : lastVal df k with
  | none => rfl
  | some v => exact absurd (lastVal_some_mem df k v hl) h

theorem denanC_readVals_of_no_nan (cols : List String) (vals : List Cell) (c : String)
    (h : ∀ x ∈ vals, x ≠ Cell.nan) :
    denanC (readVals cols vals c) = readVals cols vals c := by
  rcases readVals_mem_or_null cols vals c with he | hm
  · rw [he]
    rfl
  · exact denanC_of_ne_nan _ (h _ hm)

theorem find?_map_mkRow (g : Key → Row) (hg : ∀ a, (g a).key = a) (k : Key) :
    ∀ l : List Key, (l.map g).find? (fun r => r.key = k)
      = Option.map g (l.find? (fun a => a = k)) := by
  intro l
  induction l with
  | nil => rfl
  | cons a l ih =>
    by_cases h : a = k
    · rw [List.map_cons, List.find?_cons_of_pos, List.find?_cons_of_pos]
      · rfl
      · simpa using h
      · simpa [hg a] using h
    · rw [List.map_cons, List.find?_cons_of_neg, List.find?_cons_of_neg, ih]
      · simpa using h
      · simpa [hg a] using h

theorem find?_rows1 (t0 : Table) (df : List (Key × Cell)) (k : Key) :
    (rows1Of t0 df).find? (fun r => r.key = k)
      = ((t0.rows.find? (fun r => r.key = k)).or
          (Option.map (fun k' => (⟨k', t0.cols.map (fun _ => Cell.nan)⟩ : Row))
            ((toAddOf t0 df).find? (fun a => a = k)))) := by
  unfold rows1Of
  rw [List.find?_append, find?_map_mkRow _ (fun a => rfl) k]

theorem resetIfEmpty_eq_self (t : Table) (ht : t.rows ≠ [] ∨ t.cols = []) :
    resetIfEmpty t = t := by
  unfold resetIfEmpty
  by_cases h : t.rows.isEmpty = true
  · have hrows : t.rows = [] := by
      cases hr : t.rows with
      | nil => rfl
      | cons a l => rw [hr] at h; simp at h
    rcases ht with h1 | h1
    · exact absurd hrows h1
    · rw [if_pos h]
      cases t with
      | mk tc tr =>
        simp only at h1 hrows
        subst h1
        subst hrows
        rfl
  · rw [if_neg h]

theorem getCell_eq_of_find? (t : Table) (k : Key) (c : String) (r : Row)
    (h : t.rows.find? (fun r => r.key = k) = Option.some r) :
    getCell t k c = readVals t.cols r.vals c := by
  unfold getCell
  rw [h]

theorem getCell_eq_null_of_find?_none (t : Table) (k : Key) (c : String)
    (h : t.rows.find? (fun r => r.key = k) = Option.none) :
    getCell t k c = Cell.null := by
  unfold getCell
  rw [h]

theorem find?_appendFilings (t : Table) (df : List (Key × Cell)) (d : String) (k : Key) :
    (appendFilings t df d).rows.find? (fun r => r.key = k)
      = Option.map (fun r => Row.denan (applyWrites (colsAfter (resetIfEmpty t) d) d df r))
          ((rows2Of (resetIfEmpty t) df d).find? (fun r => r.key = k)) := by
  rw [appendFilings_rows_eq,
      find?_key_map _ (fun r => by rw [Row.denan_key, applyWrites_key]) k]

theorem find?_rows2 (t0 : Table) (df : List (Key × Cell)) (d : String) (k : Key) :
    (rows2Of t0 df d).find? (fun r => r.key = k)
      = if d ∈ t0.cols then (rows1Of t0 df).find? (fun r => r.key = k)
        else Option.map (fun r => (⟨r.key, r.vals ++ [Cell.null]⟩ : Row))
          ((rows1Of t0 df).find? (fun r => r.key = k)) := by
  unfold rows2Of
  by_cases hd : d ∈ t0.cols
  · rw [if_pos hd, if_pos hd]
  · rw [if_neg hd, if_neg hd,
        find?_key_map (fun r => (⟨r.key, r.vals ++ [Cell.null]⟩ : Row)) (fun r => rfl) k]

theorem readVals_AW_other (cols : List String) (d : String) (df : List (Key × Cell))
    (r : Row) (c : String) (h : c ≠ d ∨ lastVal df r.key = Option.none) :
    readVals cols (applyWrites cols d df r).vals c = readVals cols r.vals c := by
  cases hl : lastVal df r.key with
  | none => rw [applyWrites_eq, hl]
  | some v =>
    rcases h with h | h
    · rw [applyWrites_eq, hl]
      exact readVals_write_other d c v h cols r.vals
    · rw [h] at hl
      simp at hl

/-- The cell-level frame property of merge: any cell outside the written
column, and any cell in the written column whose key is not among the
items, reads the same before and after the merge. Holds for rectangular,
`NaN`-free prior tables that have a row or no date columns. -/
theorem getCell_frame (t : Table) (df : List (Key × Cell)) (d : String)
    (hWF : t.WF) (hNN : t.NoNan) (ht : t.rows ≠ [] ∨ t.cols = [])
    (k : Key) (c : String) (hcond : c ≠ d ∨ ¬ k ∈ df.map Prod.fst) :
    getCell (appendFilings t df d) k c = getCell t k c := by
  have hres := resetIfEmpty_eq_self t ht
  have hfind := find?_appendFilings t df d k
  rw [hres, find?_rows2] at hfind
  have hcols2 : (appendFilings t df d).cols = colsAfter t d := by
    rw [appendFilings_cols_eq, hres]
  cases hf : t.rows.find? (fun r => r.key = k) with
  | some r =>
    have hrk : r.key = k := by simpa using List.find?_some hf
    have hrmem : r ∈ t.rows := List.mem_of_find?_eq_some hf
    have hlen : r.vals.length = t.cols.length := hWF r hrmem
    have hnn : ∀ x ∈ r.vals, x ≠ Cell.nan := hNN r hrmem
    have hgR : getCell t k c = readVals t.cols r.vals c := getCell_eq_of_find? t k c r hf
    have hr1 : (rows1Of t df).find? (fun r => r.key = k) = Option.some r := by
      rw [find?_rows1, hf]
      rfl
    have hAWlast : c ≠ d ∨ lastVal df r.key = Option.none := by
      rcases hcond with h | h
      · exact Or.inl h
      · exact Or.inr (hrk ▸ lastVal_none_of_not_mem df k h)
    by_cases hd : d ∈ t.cols
    · rw [if_pos hd, hr1] at hfind
      have hcA : colsAfter t d = t.cols := by unfold colsAfter; rw [if_pos hd]
      rw [hcA] at hfind
      have hgL := getCell_eq_of_find? (appendFilings t df d) k c _ hfind
      rw [hgL, hgR, hcols2, hcA]
      show readVals t.cols ((applyWrites t.cols d df r).vals.map denanC) c
          = readVals t.cols r.vals c
      rw [readVals_map_denanC, readVals_AW_other t.cols d df r c hAWlast,
          denanC_readVals_of_no_nan t.cols r.vals c hnn]
    · rw [if_neg hd, hr1] at hfind
      have hcA : colsAfter t d = t.cols ++ [d] := by unfold colsAfter; rw [if_neg hd]
      rw [hcA] at hfind
      have hgL := getCell_eq_of_find? (appendFilings t df d) k c _ hfind
      rw [hgL, hgR, hcols2, hcA]
      show readVals (t.cols ++ [d])
          ((applyWrites (t.cols ++ [d]) d df ⟨r.key, r.vals ++ [Cell.null]⟩).vals.map denanC) c
        = readVals t.cols r.vals c
      rw [readVals_map_denanC,
          readVals_AW_other (t.cols ++ [d]) d df ⟨r.key, r.vals ++ [Cell.null]⟩ c hAWlast]
      show denanC (readVals (t.cols ++ [d]) (r.vals ++ [Cell.null]) c)
          = readVals t.cols r.vals c
      by_cases hc : c ∈ t.cols
      · rw [readVals_append_mem c Cell.null d t.cols r.vals hlen hc,
            denanC_readVals_of_no_nan t.cols r.vals c hnn]
      · rw [readVals_append_not_mem c Cell.null d t.cols r.vals hlen hc,
            readVals_not_mem c t.cols r.vals hc]
        by_cases hdc : d = c
        · rw [if_pos hdc]
          rfl
        · rw [if_neg hdc]
          rfl
  | none =>
    have hgR : getCell t k c = Cell.null := getCell_eq_null_of_find?_none t k c hf
    rw [hgR]
    cases hta : (toAddOf t df).find? (fun a => a = k) with
    | none =>
      have hr1 : (rows1Of t df).find? (fun r => r.key = k) = Option.none := by
        rw [find?_rows1, hf, hta]
        rfl
      by_cases hd : d ∈ t.cols
      · rw [if_pos hd, hr1] at hfind
        exact getCell_eq_null_of_find?_none _ k c hfind
      · rw [if_neg hd, hr1] at hfind
        exact getCell_eq_null_of_find?_none _ k c hfind
    | some a =>
      have hak : a = k := by simpa using List.find?_some hta
      rw [hak] at hta
      have hmem : k ∈ toAddOf t df := List.mem_of_find?_eq_some hta
      have hkdf : k ∈ df.map Prod.fst := ((mem_toAddOf t df k).mp hmem).1
      have hcd : c ≠ d := by
        rcases hcond with h | h
        · exact h
        · exact absurd hkdf h
      have hr1 : (rows1Of t df).find? (fun r => r.key = k)
          = Option.some ⟨k, t.cols.map (fun _ => Cell.nan)⟩ := by
        rw [find?_rows1, hf, hta]
        rfl
      by_cases hd : d ∈ t.cols
      · rw [if_pos hd, hr1] at hfind
        have hcA : colsAfter t d = t.cols := by unfold colsAfter; rw [if_pos hd]
        rw [hcA] at hfind
        have hgL := getCell_eq_of_find? (appendFilings t df d) k c _ hfind
        rw [hgL, hcols2, hcA]
        show readVals t.cols
            ((applyWrites t.cols d df ⟨k, t.cols.map (fun _ => Cell.nan)⟩).vals.map denanC) c
          = Cell.null
        rw [readVals_map_denanC,
            readVals_AW_other t.cols d df ⟨k, t.cols.map (fun _ => Cell.nan)⟩ c (Or.inl hcd)]
        show denanC (readVals t.cols (t.cols.map (fun _ => Cell.nan)) c) = Cell.null
        rw [readVals_const_nan]
        by_cases hc : c ∈ t.cols
        · rw [if_pos hc]
          rfl
        · rw [if_neg hc]
          rfl
      · rw [if_neg hd, hr1] at hfind
        have hcA : colsAfter t d = t.cols ++ [d] := by unfold colsAfter; rw [if_neg hd]
        rw [hcA] at hfind
        have hgL := getCell_eq_of_find? (appendFilings t df d) k c _ hfind
        rw [hgL, hcols2, hcA]
        show readVals (t.cols ++ [d])
            ((applyWrites (t.cols ++ [d]) d df
              ⟨k, (t.cols.map (fun _ => Cell.nan)) ++ [Cell.null]⟩).vals.map denanC) c
          = Cell.null
        rw [readVals_map_denanC,
            readVals_AW_other (t.cols ++ [d]) d df
              ⟨k, (t.cols.map (fun _ => Cell.nan)) ++ [Cell.null]⟩ c (Or.inl hcd)]
        show denanC (readVals (t.cols ++ [d])
            ((t.cols.map (fun _ => Cell.nan)) ++ [Cell.null]) c) = Cell.null
        by_cases hc : c ∈ t.cols
        · rw [readVals_append_mem c Cell.null d t.cols _ (List.length_map _ _) hc,
              readVals_const_nan, if_pos hc]
          rfl
        · rw [readVals_append_not_mem c Cell.null d t.cols _ (List.length_map _ _) hc,
              if_neg (fun h => hcd h.symm)]
          rfl

/-- C4 (amended): frame guarantee of merge, for prior tables that still
have at least one row or no date columns (the code re-initializes a
zero-row table, discarding its columns), and that are rectangular and
free of `NaN` cells, as every reachable table is. The resulting row-key
set is the union of the prior keys and the item keys, the column set is
the union of the prior columns and the date label, and every cell
outside the written column, as well as every cell in it whose key is not
among the items, keeps its prior value (absence included). -/
theorem appendFilings_frame (t : Table) (df : List (Key × Cell)) (d : String)
    (hWF : t.WF) (hNN : t.NoNan) (ht : t.rows ≠ [] ∨ t.cols = []) :
    (∀ k : Key, k ∈ (appendFilings t df d).rows.map Row.key ↔
        (k ∈ t.rows.map Row.key ∨ k ∈ df.map Prod.fst))
    ∧ (∀ c : String, c ∈ (appendFilings t df d).cols ↔ (c ∈ t.cols ∨ c = d))
    ∧ (∀ (k : Key) (c : String), (c ≠ d ∨ ¬ k ∈ df.map Prod.fst) →
        getCell (appendFilings t df d) k c = getCell t k c) := by
  have hres := resetIfEmpty_eq_self t ht
  refine ⟨?_, ?_, fun k c h => getCell_frame t df d hWF hNN ht k c h⟩
  · intro k
    rw [appendFilings_keys, hres, List.mem_append, mem_toAddOf]
    by_cases hk : k ∈ t.rows.map Row.key <;> tauto
  · intro c
    rw [appendFilings_cols_eq, hres]
    unfold colsAfter
    by_cases hd : d ∈ t.cols
    · rw [if_pos hd]
      constructor
      · exact fun h => Or.inl h
      · rintro (h | h)
        · exact h
        · exact h ▸ hd
    · rw [if_neg hd, List.mem_append, List.mem_singleton]

/-- C4 counterexample: the claim as stated fails on a reachable prior
table with zero rows. Merging an empty item list under label
"01_01_2020" into the fresh table creates that column with no rows; a
second merge under "02_01_2020" re-initializes the table and drops the
"01_01_2020" column, so the resulting column set is not the union of the
prior columns and the new label. -/
theorem appendFilings_frame_counterexample :
    ¬ ("01_01_2020" ∈
        (appendFilings (appendFilings Table.empty [] "01_01_2020") [] "02_01_2020").cols
      ↔ ("01_01_2020" ∈ (appendFilings Table.empty [] "01_01_2020").cols
          ∨ "01_01_2020" = "02_01_2020")) := by
  decide

theorem appendFilings_frame_witness :
    getCell (appendFilings tFrameW [(("NetIncome", "IS"), Cell.num 50)] "30_06_2022")
        ("Revenues", "IS") "31_03_2022"
      = getCell tFrameW ("Revenues", "IS") "31_03_2022" :=
  (appendFilings_frame tFrameW [(("NetIncome", "IS"), Cell.num 50)] "30_06_2022"
    (by decide) (by decide) (Or.inl (by decide))).2.2
    ("Revenues", "IS") "31_03_2022" (Or.inl (by decide))

/-! ### The completeness filter -/

theorem mutate_df_forms (df : List FilingRow) :
    (mutate_df df).map (fun f => f.form) = df.map (fun f => f.form) := by
  unfold mutate_df
  rw [List.map_map]
  exact List.map_congr_left (fun f _ => rfl)

theorem pivotCount_mutate (df : List FilingRow) (y : Nat) (form : String) :
    pivotCount (mutate_df df) y form = yearFormCount df y form := by
  unfold pivotCount yearFormCount mutate_df
  rw [List.filter_map, List.length_map]
  congr 1
  apply List.filter_congr
  intro f _
  by_cases h : (to_datetime f.period).year = y <;> simp [h, rowYear, mutateRow]

theorem to_datetime_is_date (p : PeriodV) :
    ∃ y m dd, to_datetime p = PeriodV.date y m dd := by
  cases p with
  | raw n => exact ⟨_, _, _, rfl⟩
  | date y m dd => exact ⟨y, m, dd, rfl⟩

/-- C8: on an input with no 10-Q filing at all, or no 10-K filing at all
(the empty list included), `get_complete_filing_years` does not return
an empty result: indexing the missing pivot column raises a `KeyError`,
modelled as the absence of a result. -/
theorem get_complete_filing_years_keyerror (df : List FilingRow)
    (h : ¬ "10-Q" ∈ df.map (fun f => f.form) ∨ ¬ "10-K" ∈ df.map (fun f => f.form)) :
    (get_complete_filing_years df).2 = Option.none := by
  have hg : ¬ ("10-Q" ∈ pivotFormsOf (mutate_df df)
      ∧ "10-K" ∈ pivotFormsOf (mutate_df df)) := by
    unfold pivotFormsOf
    rw [mutate_df_forms]
    intro hqk
    rcases h with h | h
    · exact h (List.mem_dedup.mp hqk.1)
    · exact h (List.mem_dedup.mp hqk.2)
  simp only [get_complete_filing_years]
  rw [if_neg hg]

theorem get_complete_filing_years_keyerror_witness :
    (get_complete_filing_years []).2 = Option.none :=
  get_complete_filing_years_keyerror [] (Or.inl (by decide))

/-- C9: the function mutates its input: the caller's dataframe after the
call has every period converted to a datetime value and has gained a
filing_year column, so it is not left unchanged. Stated for any input
holding a row without a filing_year value, as the raw filing index
provides. -/
theorem get_complete_mutates_input (df : List FilingRow) (f : FilingRow)
    (hf : f ∈ df) (hfy : f.filing_year = Option.none) :
    (get_complete_filing_years df).1 ≠ df
    ∧ ∀ g ∈ (get_complete_filing_years df).1,
        (∃ y, g.filing_year = Option.some y)
        ∧ ∃ y m dd, g.period = PeriodV.date y m dd := by
  have h1 : (get_complete_filing_years df).1 = mutate_df df := by
    simp only [get_complete_filing_years]
    by_cases hg : ("10-Q" ∈ pivotFormsOf (mutate_df df)
        ∧ "10-K" ∈ pivotFormsOf (mutate_df df))
    · rw [if_pos hg]
    · rw [if_neg hg]
  rw [h1]
  constructor
  · intro he
    have hmem : (Option.none : Option Nat) ∈ df.map (fun r => r.filing_year) :=
      List.mem_map.mpr ⟨f, hf, hfy⟩
    rw [← he] at hmem
    rcases List.mem_map.mp hmem with ⟨g', hg', hge⟩
    rcases List.mem_map.mp hg' with ⟨r, _, hre⟩
    rw [← hre] at hge
    simp [mutateRow] at hge
  · intro g hg'
    rcases List.mem_map.mp hg' with ⟨r, _, hre⟩
    constructor
    · exact ⟨(to_datetime r.period).year, by rw [← hre]; rfl⟩
    · have : g.period = to_datetime r.period := by rw [← hre]; rfl
      rw [this]
      exact to_datetime_is_date r.period

theorem get_complete_mutates_input_witness :
    (get_complete_filing_years dfMutW).1 ≠ dfMutW
    ∧ ∀ g ∈ (get_complete_filing_years dfMutW).1,
        (∃ y, g.filing_year = Option.some y)
        ∧ ∃ y m dd, g.period = PeriodV.date y m dd :=
  get_complete_mutates_input dfMutW ⟨"a1", "10-Q", PeriodV.raw 20220331, Option.none⟩
    (by decide) (by decide)

/-- C6: a year that reads as holding two or more annual filings, or four
or more quarterly filings — as happens when duplicate filings with
identical form and period (e.g. amended resubmissions) are counted —
contributes no filings at all to the output: the count exceeds the
exact-count requirement, so the whole year is excluded. -/
theorem complete_filter_excludes_overfull (df : List FilingRow) (y : Nat)
    (out : List FilingRow)
    (hout : (get_complete_filing_years df).2 = Option.some out)
    (hdup : 2 ≤ yearFormCount df y "10-K" ∨ 4 ≤ yearFormCount df y "10-Q") :
    ∀ f ∈ out, f.period.year ≠ y := by
  by_cases hg : ("10-Q" ∈ pivotFormsOf (mutate_df df)
      ∧ "10-K" ∈ pivotFormsOf (mutate_df df))
  case neg =>
    simp only [get_complete_filing_years] at hout
    rw [if_neg hg] at hout
    simp at hout
  case pos =>
    simp only [get_complete_filing_years] at hout
    rw [if_pos hg] at hout
    have hout' : out
        = (List.insertionSort periodLe (completeFilter (mutate_df df))).map
            dropFilingYear :=
      (Option.some.inj hout).symm
    intro f hf hy
    rw [hout'] at hf
    rcases List.mem_map.mp hf with ⟨g, hg1, hg2⟩
    have hperm := List.perm_insertionSort periodLe (completeFilter (mutate_df df))
    have hg3 : g ∈ completeFilter (mutate_df df) := hperm.mem_iff.mp hg1
    have hpred := List.of_mem_filter hg3
    have hgdf2 : g ∈ mutate_df df := List.mem_of_mem_filter hg3
    rcases List.mem_map.mp hgdf2 with ⟨f0, _, hf0⟩
    have hgy : rowYear g = f.period.year := by
      rw [← hg2, ← hf0]
      rfl
    rw [hy] at hgy
    have hmemY : rowYear g ∈ completeYearsOf (mutate_df df) := by
      simp only [Bool.and_eq_true, decide_eq_true_eq] at hpred
      exact hpred.1
    rw [hgy] at hmemY
    have hcounts := List.of_mem_filter hmemY
    simp only [Bool.and_eq_true, decide_eq_true_eq] at hcounts
    obtain ⟨hq3, hk1⟩ := hcounts
    rw [pivotCount_mutate] at hq3 hk1
    rcases hdup with h | h
    · omega
    · omega

theorem complete_filter_excludes_overfull_witness :
    (⟨"q1", "10-Q", PeriodV.date 2021 3 31, Option.none⟩ : FilingRow).period.year ≠ 2022 :=
  complete_filter_excludes_overfull dfDupW 2022 outDupW (by decide) (Or.inl (by decide))
    ⟨"q1", "10-Q", PeriodV.date 2021 3 31, Option.none⟩ (by decide)

theorem mem_completeYearsOf (df : List FilingRow) (f : FilingRow) (hf : f ∈ df) :
    ((to_datetime f.period).year ∈ completeYearsOf (mutate_df df))
      ↔ (yearFormCount df ((to_datetime f.period).year) "10-Q" = 3
          ∧ yearFormCount df ((to_datetime f.period).year) "10-K" = 1) := by
  unfold completeYearsOf
  rw [List.mem_filter]
  constructor
  · intro hc
    have hc2 := hc.2
    simp only [Bool.and_eq_true, decide_eq_true_eq] at hc2
    rw [pivotCount_mutate, pivotCount_mutate] at hc2
    exact hc2
  · intro hc
    refine ⟨?_, ?_⟩
    · rw [List.mem_dedup]
      refine List.mem_map.mpr ⟨mutateRow f, List.mem_map.mpr ⟨f, hf, rfl⟩, rfl⟩
    · simp only [Bool.and_eq_true, decide_eq_true_eq]
      rw [pivotCount_mutate, pivotCount_mutate]
      exact hc

/-- C2 (amended): on any input containing at least one 10-Q filing and at
least one 10-K filing, the function returns a result that is a
permutation-free reordering of exactly the filings selected by the
specification's predicate (form restricted to 10-Q/10-K, period-end year
holding exactly three 10-Q and exactly one 10-K filings; incomplete
years contribute nothing), sorted ascending by period-end date. -/
theorem get_complete_filing_years_spec (df : List FilingRow)
    (hQ : "10-Q" ∈ df.map (fun f => f.form))
    (hK : "10-K" ∈ df.map (fun f => f.form)) :
    ∃ out, (get_complete_filing_years df).2 = Option.some out
      ∧ out.Perm ((df.filter (specComplete df)).map finalTransform)
      ∧ out.Pairwise periodLe := by
  have hg : ("10-Q" ∈ pivotFormsOf (mutate_df df)
      ∧ "10-K" ∈ pivotFormsOf (mutate_df df)) := by
    unfold pivotFormsOf
    rw [mutate_df_forms]
    exact ⟨List.mem_dedup.mpr hQ, List.mem_dedup.mpr hK⟩
  refine ⟨(List.insertionSort periodLe (completeFilter (mutate_df df))).map
      dropFilingYear, ?_, ?_, ?_⟩
  · simp only [get_complete_filing_years]
    rw [if_pos hg]
  · have hperm := (List.perm_insertionSort periodLe
      (completeFilter (mutate_df df))).map dropFilingYear
    refine hperm.trans ?_
    have heq : (completeFilter (mutate_df df)).map dropFilingYear
        = (df.filter (specComplete df)).map finalTransform := by
      unfold completeFilter
      show ((df.map mutateRow).filter _).map dropFilingYear = _
      rw [List.filter_map, List.map_map]
      have hpt : ∀ f ∈ df,
          ((fun f => rowYear f ∈ completeYearsOf (mutate_df df)
              && (f.form = "10-Q" || f.form = "10-K")) ∘ mutateRow) f
            = specComplete df f := by
        intro f hf
        show (decide ((to_datetime f.period).year ∈ completeYearsOf (mutate_df df))
            && (decide (f.form = "10-Q") || decide (f.form = "10-K")))
          = specComplete df f
        have hiff := mem_completeYearsOf df f hf
        rw [Bool.eq_iff_iff]
        simp only [specComplete, Bool.and_eq_true, Bool.or_eq_true, decide_eq_true_eq]
        rw [hiff]
        tauto
      rw [List.filter_congr hpt]
      exact List.map_congr_left (fun f _ => rfl)
    rw [heq]
  · have hs := List.sorted_insertionSort periodLe (completeFilter (mutate_df df))
    rw [List.pairwise_map]
    exact hs.imp (fun h => h)

/-- C2 counterexample: the claim as stated is over all input lists, but
on the empty list (whose output the claim requires to be the empty
subset) the function returns no result at all — the pivot lookup raises
a `KeyError`. -/
theorem get_complete_filing_years_spec_counterexample :
    ¬ ∃ out, (get_complete_filing_years []).2 = Option.some out := by
  rintro ⟨out, h⟩
  have hnone : (get_complete_filing_years ([] : List FilingRow)).2 = Option.none := rfl
  rw [hnone] at h
  exact Option.noConfusion h

theorem get_complete_filing_years_spec_witness :
    ∃ out, (get_complete_filing_years dfSpecW).2 = Option.some out
      ∧ out.Perm ((dfSpecW.filter (specComplete dfSpecW)).map finalTransform)
      ∧ out.Pairwise periodLe :=
  get_complete_filing_years_spec dfSpecW (by decide) (by decide)

/-! ### The persisted CSV artifact -/

theorem digitChar_isDigit (n : Nat) (h : n < 10) : (Nat.digitChar n).isDigit = true := by
  interval_cases n <;> decide

theorem strftime_shape (y m d : Nat) (hy : y < 10000) (hm : m < 100) (hd : d < 100) :
    ∃ dc mc yc : List Char,
      (strftime_dmY (PeriodV.date y m d)).data = dc ++ '_' :: (mc ++ '_' :: yc)
      ∧ dc.length = 2 ∧ mc.length = 2 ∧ yc.length = 4
      ∧ ∀ ch ∈ dc ++ mc ++ yc, ch.isDigit := by
  refine ⟨[Nat.digitChar (d / 10 % 10), Nat.digitChar (d % 10)],
          [Nat.digitChar (m / 10 % 10), Nat.digitChar (m % 10)],
          [Nat.digitChar (y / 1000 % 10), Nat.digitChar (y / 100 % 10),
           Nat.digitChar (y / 10 % 10), Nat.digitChar (y % 10)], ?_, rfl, rfl, rfl, ?_⟩
  · show (fmt2 d ++ "_" ++ fmt2 m ++ "_" ++ fmt4 y).data = _
    rw [String.data_append, String.data_append, String.data_append, String.data_append]
    rfl
  · intro ch hch
    simp only [List.mem_append, List.mem_cons, List.not_mem_nil, or_false] at hch
    rcases hch with ((h | h) | (h | h)) | (h | h | h | h) <;>
      · rw [h]
        exact digitChar_isDigit _ (Nat.mod_lt _ (by omega))

/-- C5 (amended): the persisted CSV artifact is rectangular; its first
column is the unnamed integer row index written by `to_csv(index=True)`
(empty header field), the next two columns are `tag` and `stmt`, and the
remaining columns are the filing date labels, each formatted as a
two-digit day, a two-digit month and a four-digit year separated by
underscores; every data cell beyond the first three columns is numeric
or empty. -/
theorem export_csv_spec (t : Table) (hWF : t.WF)
    (hcols : ∀ c ∈ t.cols, ∃ y m d, y < 10000 ∧ m < 100 ∧ d < 100
        ∧ c = strftime_dmY (PeriodV.date y m d)) :
    (export_csv t).headD [] = "" :: "tag" :: "stmt" :: t.cols
    ∧ (∀ r ∈ export_csv t, r.length = t.cols.length + 3)
    ∧ (∀ c ∈ t.cols, ∃ dc mc yc : List Char,
        c.data = dc ++ '_' :: (mc ++ '_' :: yc)
        ∧ dc.length = 2 ∧ mc.length = 2 ∧ yc.length = 4
        ∧ ∀ ch ∈ dc ++ mc ++ yc, ch.isDigit)
    ∧ (∀ r ∈ (export_csv t).tail, ∀ s ∈ r.drop 3, s = "" ∨ ∃ v : Int, s = toString v) := by
  refine ⟨rfl, ?_, ?_, ?_⟩
  · intro r hr
    rcases List.mem_cons.mp hr with h | h
    · rw [h]
      simp [List.length_cons]
    · rcases List.mem_map.mp h with ⟨p, hp, hpe⟩
      have hrow : p.2 ∈ t.rows := by
        have h2 := List.mem_map_of_mem Prod.snd hp
        rw [List.enum_map_snd] at h2
        exact h2
      rw [← hpe]
      simp [List.length_cons, List.length_map, hWF p.2 hrow]
  · intro c hc
    rcases hcols c hc with ⟨y, m, d, hy, hm, hd, hce⟩
    rw [hce]
    exact strftime_shape y m d hy hm hd
  · intro r hr s hs
    rcases List.mem_map.mp hr with ⟨p, _, hpe⟩
    rw [← hpe] at hs
    have hs' : s ∈ p.2.vals.map cellToCsv := hs
    rcases List.mem_map.mp hs' with ⟨x, _, hxe⟩
    cases x with
    | null => exact Or.inl hxe.symm
    | nan => exact Or.inl hxe.symm
    | num v => exact Or.inr ⟨v, hxe.symm⟩

/-- C5 counterexample: the persisted artifact's first two columns are not
`tag` and `stmt`: `to_csv(index=True)` writes the unnamed integer row
index as the first column, so the header starts with an empty field
followed by `tag`. -/
theorem export_csv_spec_counterexample :
    ((export_csv tCsvW).headD []).take 2 ≠ ["tag", "stmt"] := by
  decide

theorem export_csv_spec_witness :
    (export_csv tCsvW).headD [] = "" :: "tag" :: "stmt" :: tCsvW.cols :=
  (export_csv_spec tCsvW (by decide) (fun c hc => by
    have hcols : tCsvW.cols = ["31_03_2022"] := by decide
    rw [hcols] at hc
    have h : c = "31_03_2022" := List.mem_singleton.mp hc
    exact ⟨2022, 3, 31, by omega, by omega, by omega, by rw [h]; decide⟩)).1
